import Mathlib

/-!
# Verification of the lead-email crawler's discovery engine

Shallow embedding of the email discovery logic of `src/email_crawler.py`
(class `EmailCrawler`): the email regular-expression extraction
(`email_pattern.findall`), the search-surface stage (`search_naver_place`),
the website stage (`extract_email_from_website`, with the inline
priority-keyword ranking, called `pickBest` by the specification), and the
tiered orchestrator (`find_email`).

Text is modelled as `List Char`.  External effects (the Selenium driver,
page loads, element lookups) are modelled as explicit world values: each
effectful sub-step of the Python code is a field holding `Except Unit α` —
`.ok` for the value the collaborator returned, `.error` for a raised
exception at that step.  The `try/except` blocks of the Python code become
explicit `match`es on those fields, placed exactly where the Python blocks
sit.
-/

/-- Shorthand: the character list of a string literal. -/
def str (s : String) : List Char := s.toList

/-! ## Character classes of `email_pattern` (src/email_crawler.py lines 45-47)

The pattern is `\b[A-Za-z0-9._%+-]+@[A-Za-z0-9.-]+\.[A-Z|a-z]{2,}\b`.
Note that the third class is literally `[A-Z|a-z]`: it contains the pipe
character `|` in addition to the letters.

`\w` (hence `\b`) is modelled over ASCII word characters.  Python's `re`
also treats non-ASCII Unicode letters as word characters; all concrete
inputs of the theorems below are ASCII, where the two notions agree. -/

def isWordChar (c : Char) : Bool := c.isAlphanum || c = '_'

/-- The class `[A-Za-z0-9._%+-]` of the local part. -/
def isLocalChar (c : Char) : Bool :=
  c.isAlphanum || c = '.' || c = '_' || c = '%' || c = '+' || c = '-'

/-- The class `[A-Za-z0-9.-]` of the domain part. -/
def isDomainChar (c : Char) : Bool := c.isAlphanum || c = '.' || c = '-'

/-- The class `[A-Z|a-z]` of the final (TLD) part: letters or `|`. -/
def isTldChar (c : Char) : Bool := c.isAlpha || c = '|'

/-- Whether an optional character is a word character (`none` = out of the
text, not a word character). -/
def optWord : Option Char → Bool
  | none => false
  | some c => isWordChar c

/-- Python substring containment (`needle in hay`). -/
def hasSub (needle hay : List Char) : Bool :=
  match hay with
  | [] => needle.isEmpty
  | _ :: t => needle.isPrefixOf hay || hasSub needle t

/-- `str.lower()` over a character list (ASCII). -/
def lowerL (s : List Char) : List Char := s.map Char.toLower

/-! ## The backtracking matcher for `email_pattern`

Python's engine at a given start position behaves as follows on this
pattern: `[A-Za-z0-9._%+-]+` is forced to the maximal run (no shorter run
can be followed by `@`, which is not in the class); then `@`; then
`[A-Za-z0-9.-]+\.` backtracks greedily, i.e. the split point is the
rightmost `.` inside the maximal domain run that leaves a nonempty domain
prefix; then `[A-Z|a-z]{2,}` takes the maximal run of TLD characters and
backtracks it down to length 2 until the final `\b` holds; if no TLD length
works the engine retries the next `.` to the left, and so on. -/

/-- Backtracking of the greedy `[A-Z|a-z]{2,}\b` tail.  `rt` is the
reversed remaining candidate run, `rest` the text after it.  Tries the
longest candidate first, shortening from the right until the word-boundary
`\b` after the last kept character holds; needs at least 2 characters.
On success returns (kept run in order, text after it). -/
def tldChop : List Char → List Char → Option (List Char × List Char)
  | [], _ => none
  | c :: rt, rest =>
    if !rt.isEmpty && (isWordChar c != optWord rest.head?) then
      some ((c :: rt).reverse, rest)
    else
      tldChop rt (c :: rest)

/-- Backtracking of `[A-Za-z0-9.-]+\.` over the maximal domain run.
`rd` is the reversed not-yet-scanned part of the run, `tail` the part of
the run to its right (in order), `r3` the text after the whole run.  Scans
for the rightmost `.` with a nonempty prefix before it, and for each such
split attempts the TLD tail on the text after the dot.  On success returns
(domain-and-TLD part of the match in order, remaining text). -/
def domScanRev : List Char → List Char → List Char → Option (List Char × List Char)
  | [], _, _ => none
  | c :: rd, tail, r3 =>
    if (c == '.') && !rd.isEmpty then
      match tldChop ((tail ++ r3).takeWhile isTldChar).reverse
          ((tail ++ r3).dropWhile isTldChar) with
      | some (t, rem) => some (rd.reverse ++ '.' :: t, rem)
      | none => domScanRev rd (c :: tail) r3
    else
      domScanRev rd (c :: tail) r3

/-- One attempt of `email_pattern` at the current position.  `prev` is the
character just before the position (`none` at the start of the text), `s`
the text from the position on.  On success returns (matched characters,
text after the match). -/
def tryMatchAt (prev : Option Char) (s : List Char) : Option (List Char × List Char) :=
  if optWord prev != optWord s.head? then
    if (s.takeWhile isLocalChar).isEmpty then none
    else
      match s.dropWhile isLocalChar with
      | '@' :: r2 =>
        match domScanRev (r2.takeWhile isDomainChar).reverse [] (r2.dropWhile isDomainChar) with
        | some (dt, rem) => some (s.takeWhile isLocalChar ++ '@' :: dt, rem)
        | none => none
      | _ => none
  else none

/-- Left-to-right scan of `findall`: attempt a match at each position; on
success emit it and continue right after it, otherwise advance one
character.  `fuel` bounds the number of steps (every step consumes at least
one character, so `s.length + 1` is always enough). -/
def findallAux : Nat → Option Char → List Char → List (List Char)
  | 0, _, _ => []
  | fuel + 1, prev, s =>
    match tryMatchAt prev s, s with
    | some (m, rest), _ => m :: findallAux fuel m.getLast? rest
    | none, [] => []
    | none, c :: t => findallAux fuel (some c) t

/-- `self.email_pattern.findall(text)` (src/email_crawler.py lines 45-47):
all non-overlapping matches of the pattern, scanned left to right. -/
def email_findall (s : List Char) : List (List Char) :=
  findallAux (s.length + 1) none s

example : email_findall (str "a@b.cd|ef") = [str "a@b.cd|ef"] := by decide
example : email_findall (str "a@b.co a@b.co") = [str "a@b.co", str "a@b.co"] := by decide
example : email_findall (str "x naver.com@foo.co") = [str "naver.com@foo.co"] := by decide
example : email_findall (str "a@b.c9x") = [] := by decide
example : email_findall (str "a@b.cd|9") = [str "a@b.cd|"] := by decide
example : email_findall (str ".a@b.co") = [str "a@b.co"] := by decide
example : email_findall (str "x|y@a.bc") = [str "y@a.bc"] := by decide
example : email_findall (str "a@b.c.de") = [str "a@b.c.de"] := by decide
example : email_findall (str "aa@bb.cc|") = [str "aa@bb.cc"] := by decide
example : email_findall (str "contact info: info@acme.kr") = [str "info@acme.kr"] := by decide

/-! ## The search-surface stage: `search_naver_place` (lines 93-149) -/

/-- The exclusion filter of `search_naver_place` (lines 134-137): a
candidate survives when neither `naver.com` nor `google.com` occurs as a
substring anywhere in the candidate string (Python `'naver.com' not in
email and 'google.com' not in email`). -/
def filter_valid (emails : List (List Char)) : List (List Char) :=
  emails.filter (fun e => !hasSub (str "naver.com") e && !hasSub (str "google.com") e)

/-- The homepage-selection loop of `search_naver_place` (lines 122-127):
iterate the anchors' `href` attributes in document order, keep the first
one that is present (not `None`), non-empty, and contains neither
`naver.com` nor `google.com` as a substring (Python `if href and
'naver.com' not in href and 'google.com' not in href`). -/
def pick_homepage : List (Option (List Char)) → Option (List Char)
  | [] => none
  | h :: t =>
    match h with
    | some href =>
      if !href.isEmpty && !hasSub (str "naver.com") href && !hasSub (str "google.com") href
      then some href
      else pick_homepage t
    | none => pick_homepage t

/-- The search URL built at line 104. -/
def search_url (company_name : List Char) : List Char :=
  str "https://search.naver.com/search.naver?query=" ++ company_name

/-- What one rendered search page yields to the three metadata sub-steps of
`search_naver_place`, each modelled with its possible exception:
`phoneRes` is the outcome of lines 117-119 (`none` when no phone element,
otherwise the trimmed text of the first one), `hrefsRes` the `href`
attributes of the anchors of line 122 in document order, and `sourceRes`
the outcome of reading `driver.page_source` at line 130. -/
structure PlacePage where
  phoneRes : Except Unit (Option (List Char))
  hrefsRes : Except Unit (List (Option (List Char)))
  sourceRes : Except Unit (List Char)

/-- The dictionary returned by `search_naver_place` (lines 108-112). -/
structure NaverResult where
  email : Option (List Char)
  homepage : Option (List Char)
  phone : Option (List Char)
deriving DecidableEq, Repr

/-- `search_naver_place` (lines 93-149).  `world` maps the navigated URL to
the rendered page, or to an exception when `driver.get` fails.  The outer
`try` (line 103) catches a navigation failure and returns the all-`None`
dictionary (line 149).  The inner `try` (line 115) wraps the three metadata
sub-steps in sequence: an exception at any of them jumps to line 142, so
the fields assigned before the failing step are kept and the failing and
later fields stay `None`. -/
def search_naver_place (company_name : List Char)
    (world : List Char → Except Unit PlacePage) : NaverResult :=
  match world (search_url company_name) with
  | .error _ => ⟨none, none, none⟩
  | .ok page =>
    match page.phoneRes with
    | .error _ => ⟨none, none, none⟩
    | .ok ph =>
      match page.hrefsRes with
      | .error _ => ⟨none, none, ph⟩
      | .ok hrefs =>
        let hp := pick_homepage hrefs
        match page.sourceRes with
        | .error _ => ⟨none, hp, ph⟩
        | .ok src => ⟨(filter_valid (email_findall src)).head?, hp, ph⟩

/-! ## The website stage: `extract_email_from_website` (lines 151-202) -/

/-- The fixed keyword list of line 187. -/
def priority_keywords : List (List Char) :=
  [str "ceo", str "info", str "contact", str "admin", str "master"]

/-- The nested ranking loops of lines 189-196 — `pickBest` in the
specification's terms: for each keyword in order, return the first
candidate whose **whole lowercased string** contains the keyword (Python
`if keyword in email.lower()`); if no keyword matches any candidate,
return the first candidate (line 195-196), or `none` when there are no
candidates (line 198). -/
def pick_best (emails : List (List Char)) (keywords : List (List Char)) : Option (List Char) :=
  match keywords with
  | [] => emails.head?
  | k :: ks =>
    match emails.find? (fun e => hasSub k (lowerL e)) with
    | some e => some e
    | none => pick_best emails ks

/-- The URL normalization of lines 166-167: prepend `http://` unless the
URL already starts with `http`. -/
def normalize_url (u : List Char) : List Char :=
  if (str "http").isPrefixOf u then u else str "http://" ++ u

/-- What the external world yields to `extract_email_from_website`:
`navRes` is the outcome of `driver.get` on the (normalized) URL (line
169); `contactsRes` the outcome of the contact-link lookup of lines
173-176 (`true` when at least one matching anchor exists); `clickRes` the
outcome of clicking the first contact link (line 179); `textClicked` /
`textPlain` the outcome of reading `driver.page_source` (line 183) after /
without that click. -/
structure SiteWorld where
  navRes : List Char → Except Unit Unit
  contactsRes : Except Unit Bool
  clickRes : Except Unit Unit
  textClicked : Except Unit (List Char)
  textPlain : Except Unit (List Char)

/-- The page text `extract_email_from_website` ends up reading: after the
contact-link click when a contact link exists, the landing page otherwise;
an exception at the lookup, the click or the read propagates. -/
def site_page_text (w : SiteWorld) : Except Unit (List Char) :=
  match w.contactsRes with
  | .error e => .error e
  | .ok true =>
    match w.clickRes with
    | .error e => .error e
    | .ok _ => w.textClicked
  | .ok false => w.textPlain

/-- The body of `extract_email_from_website`'s `try` block (lines 162-198):
`None` for a falsy URL (line 162-163, Python `if not url`), then
navigation, the optional contact-link hop, and extraction with the
priority-keyword ranking.  Exceptions are propagated to the boundary. -/
def website_body (url : Option (List Char)) (w : SiteWorld) :
    Except Unit (Option (List Char)) :=
  match url with
  | none => .ok none
  | some u =>
    if u.isEmpty then .ok none
    else
      match w.navRes (normalize_url u) with
      | .error e => .error e
      | .ok _ =>
        match site_page_text w with
        | .error e => .error e
        | .ok text => .ok (pick_best (email_findall text) priority_keywords)

/-- `extract_email_from_website` (lines 151-202): the `try` body with every
exception caught at the boundary and turned into `None` (lines 200-202). -/
def extract_email_from_website (url : Option (List Char)) (w : SiteWorld) :
    Option (List Char) :=
  match website_body url w with
  | .error _ => none
  | .ok r => r

/-! ## The orchestrator: `find_email` (lines 204-244) -/

/-- The source label of line 228. -/
def source_naver : List Char := str "네이버 플레이스"

/-- The source label of line 238. -/
def source_website : List Char := str "회사 홈페이지"

/-- The dictionary returned by `find_email` (lines 217-221). -/
structure DiscoveryResult where
  email : Option (List Char)
  source : Option (List Char)
  confidence : List Char
deriving DecidableEq, Repr

/-- Python truthiness of an optional string: `None` and the empty string
are falsy. -/
def py_truthy : Option (List Char) → Bool
  | none => false
  | some s => !s.isEmpty

/-- `find_email` (lines 204-244).  The parameters mirror the Python
signature (`company_name`, the optional `representative`) followed by the
two stage worlds.  The second component of the result counts how many
times `extract_email_from_website` is invoked (instrumentation for the
short-circuit property; the Python function performs the call at line 235
only on the path where it is counted). -/
def find_email (company_name : List Char) (representative : Option (List Char))
    (placeWorld : List Char → Except Unit PlacePage) (siteWorld : SiteWorld) :
    DiscoveryResult × Nat :=
  let naver_result := search_naver_place company_name placeWorld
  if py_truthy naver_result.email then
    (⟨naver_result.email, some source_naver, str "HIGH"⟩, 0)
  else if py_truthy naver_result.homepage then
    let website_email := extract_email_from_website naver_result.homepage siteWorld
    if py_truthy website_email then
      (⟨website_email, some source_website, str "MEDIUM"⟩, 1)
    else
      (⟨none, none, str "LOW"⟩, 1)
  else
    (⟨none, none, str "LOW"⟩, 0)

/-! ## Specification-side definitions

Definitions written from the specification's / claims' wording, used only
to compare a claimed behaviour with the code's behaviour. -/

/-- Modelled from the spec: the local part of an email candidate, "the part
before `@`". -/
def local_part (e : List Char) : List Char := e.takeWhile (fun c => c ≠ '@')

/-- Modelled from the spec: the domain of an email candidate, the part
after the `@`. -/
def domain_part (e : List Char) : List Char :=
  (e.dropWhile (fun c => c ≠ '@')).drop 1

/-- Modelled from the spec: the exclusion filter as the claim states it —
a candidate is kept iff its domain does not **end in** an excluded domain
(the portal's own domain and a generic search-engine domain). -/
def keep_spec (e : List Char) : Bool :=
  !((str "naver.com").isSuffixOf (domain_part e)
    || (str "google.com").isSuffixOf (domain_part e))

/-- Modelled from the spec: text after the scheme separator of a URL
(everything after the first occurrence of the marker; the URL itself when
the marker does not occur). -/
def after_marker (marker : List Char) (u : List Char) : List Char :=
  match u with
  | [] => []
  | _ :: t => if marker.isPrefixOf u then u.drop marker.length else after_marker marker t

/-- Modelled from the spec: the target host of a URL — the text after the
scheme separator, up to the first `/`, `:`, `?` or `#`. -/
def host_of (u : List Char) : List Char :=
  (if hasSub (str "://") u then after_marker (str "://") u else u).takeWhile
    (fun c => c ≠ '/' && c ≠ ':' && c ≠ '?' && c ≠ '#')

/-- Modelled from the spec: homepage selection as the claim states it —
the first link whose target host is neither the search portal's own domain
nor a generic search-engine domain. -/
def pick_homepage_spec : List (Option (List Char)) → Option (List Char)
  | [] => none
  | h :: t =>
    match h with
    | some href =>
      if !(host_of href == str "naver.com") && !(host_of href == str "google.com")
      then some href
      else pick_homepage_spec t
    | none => pick_homepage_spec t

/-- Modelled from the spec: the ranking `pickBest` as the claim states it —
for each keyword in order, the first candidate whose **local part**
(lowercased) contains the keyword; fallback to the first candidate. -/
def pick_best_localpart (emails : List (List Char)) (keywords : List (List Char)) :
    Option (List Char) :=
  match keywords with
  | [] => emails.head?
  | k :: ks =>
    match emails.find? (fun e => hasSub k (lowerL (local_part e))) with
    | some e => some e
    | none => pick_best_localpart emails ks

/-! ## Claim theorems -/

/-- C1: whenever the search-surface stage yields a non-empty email,
`find_email` returns that email with the search-surface source label and
HIGH confidence, and `extract_email_from_website` is never invoked (the
invocation count is 0). -/
theorem C1_search_surface_short_circuit :
    ∀ (company_name : List Char) (representative : Option (List Char))
      (placeWorld : List Char → Except Unit PlacePage) (siteWorld : SiteWorld)
      (e : List Char),
      (search_naver_place company_name placeWorld).email = some e → e ≠ [] →
      find_email company_name representative placeWorld siteWorld =
        (⟨some e, some source_naver, str "HIGH"⟩, 0) := by
  intro n rep pw sw e he hne
  cases e with
  | nil => exact absurd rfl hne
  | cons c t =>
    unfold find_email
    simp [he, py_truthy]

/-- The concrete search page used by the C1 witness. -/
def c1Page : PlacePage :=
  ⟨Except.ok none, Except.ok [], Except.ok (str "contact: info@acme.kr")⟩

/-- The concrete search world used by the C1 witness. -/
def c1PlaceWorld : List Char → Except Unit PlacePage := fun _ => Except.ok c1Page

/-- A neutral website world (never consulted on the C1 path). -/
def c1Site : SiteWorld :=
  ⟨fun _ => Except.ok (), Except.ok false, Except.ok (), Except.ok [], Except.ok []⟩

/-- C1 witness: on a concrete search page whose rendered text carries
`info@acme.kr`, the orchestrator returns it with HIGH confidence and the
website stage is not invoked. -/
theorem C1_witness :
    find_email (str "acme") none c1PlaceWorld c1Site =
      (⟨some (str "info@acme.kr"), some source_naver, str "HIGH"⟩, 0) :=
  C1_search_surface_short_circuit (str "acme") none c1PlaceWorld c1Site
    (str "info@acme.kr") (by decide) (by decide)

/-- Truthiness of an optional string means it holds a non-empty string. -/
theorem py_truthy_some (o : Option (List Char)) (h : py_truthy o = true) :
    ∃ e, o = some e ∧ e ≠ [] := by
  cases o with
  | none => exact absurd h (by decide)
  | some s =>
    cases s with
    | nil => exact absurd h (by decide)
    | cons c t => exact ⟨c :: t, rfl, by simp⟩

/-- Every result of `find_email` has one of three shapes: a search-surface
hit, a website hit, or the not-found dictionary. -/
theorem find_email_shape (n : List Char) (rep : Option (List Char))
    (pw : List Char → Except Unit PlacePage) (sw : SiteWorld) :
    (∃ e, find_email n rep pw sw = (⟨some e, some source_naver, str "HIGH"⟩, 0))
    ∨ (∃ e, find_email n rep pw sw = (⟨some e, some source_website, str "MEDIUM"⟩, 1))
    ∨ (∃ k, find_email n rep pw sw = (⟨none, none, str "LOW"⟩, k)) := by
  unfold find_email
  by_cases h1 : py_truthy (search_naver_place n pw).email
  · obtain ⟨e, he, -⟩ := py_truthy_some _ h1
    refine Or.inl ⟨e, ?_⟩
    rw [he] at h1
    simp [he, h1]
  · by_cases h2 : py_truthy (search_naver_place n pw).homepage
    · by_cases h3 : py_truthy (extract_email_from_website (search_naver_place n pw).homepage sw)
      · obtain ⟨e, he, -⟩ := py_truthy_some _ h3
        refine Or.inr (Or.inl ⟨e, ?_⟩)
        rw [he] at h3
        simp [h1, h2, h3, he]
      · exact Or.inr (Or.inr ⟨1, by simp [h1, h2, h3]⟩)
    · exact Or.inr (Or.inr ⟨0, by simp [h1, h2]⟩)

/-- The three confidence labels are pairwise distinct. -/
theorem high_ne_medium : str "HIGH" ≠ str "MEDIUM" := by decide

/-- The HIGH and LOW labels differ. -/
theorem high_ne_low : str "HIGH" ≠ str "LOW" := by decide

/-- The MEDIUM and LOW labels differ. -/
theorem medium_ne_low : str "MEDIUM" ≠ str "LOW" := by decide

/-- The two source labels differ. -/
theorem naver_ne_website : source_naver ≠ source_website := by decide

/-- C2: in every result of `find_email`, the confidence is determined by
the source: HIGH iff the search-surface label, MEDIUM iff the website
label, and LOW iff the result is exactly the not-found dictionary
(no email, no source, LOW). -/
theorem C2_confidence_determined_by_source :
    ∀ (company_name : List Char) (representative : Option (List Char))
      (placeWorld : List Char → Except Unit PlacePage) (siteWorld : SiteWorld),
      ((find_email company_name representative placeWorld siteWorld).1.confidence = str "HIGH"
        ↔ (find_email company_name representative placeWorld siteWorld).1.source
            = some source_naver)
      ∧ ((find_email company_name representative placeWorld siteWorld).1.confidence = str "MEDIUM"
        ↔ (find_email company_name representative placeWorld siteWorld).1.source
            = some source_website)
      ∧ ((find_email company_name representative placeWorld siteWorld).1.confidence = str "LOW"
        ↔ (find_email company_name representative placeWorld siteWorld).1
            = ⟨none, none, str "LOW"⟩) := by
  intro n rep pw sw
  rcases find_email_shape n rep pw sw with ⟨e, he⟩ | ⟨e, he⟩ | ⟨k, he⟩ <;> rw [he]
  · exact ⟨iff_of_true rfl rfl,
      iff_of_false high_ne_medium (fun h => naver_ne_website (Option.some.inj h)),
      iff_of_false high_ne_low (fun h => Option.noConfusion (congrArg DiscoveryResult.source h))⟩
  · exact ⟨iff_of_false (fun h => high_ne_medium h.symm)
        (fun h => naver_ne_website (Option.some.inj h).symm),
      iff_of_true rfl rfl,
      iff_of_false medium_ne_low (fun h => Option.noConfusion (congrArg DiscoveryResult.source h))⟩
  · exact ⟨iff_of_false (fun h => high_ne_low h.symm) (fun h => Option.noConfusion h),
      iff_of_false (fun h => medium_ne_low h.symm) (fun h => Option.noConfusion h),
      iff_of_true rfl rfl⟩

/-- C10: the result of `find_email` does not depend on the
`representative` argument — the parameter is accepted but never read, so
two runs over the same external world that differ only in it (including
passing `none`, the Python default) give identical results. -/
theorem C10_representative_independence :
    ∀ (company_name : List Char) (rep1 rep2 : Option (List Char))
      (placeWorld : List Char → Except Unit PlacePage) (siteWorld : SiteWorld),
      find_email company_name rep1 placeWorld siteWorld =
        find_email company_name rep2 placeWorld siteWorld := by
  intro _ _ _ _ _
  rfl

/-- C3 counterexample: the ranking loop tests the keyword against the
**whole** lowercased email, not its local part.  With candidates
`x@ceo.com`, `info@y.com` and keywords `ceo`, `info`, the code returns
`x@ceo.com` (keyword `ceo` found in its domain), while the claimed
local-part rule would skip it (no local part contains `ceo`) and return
`info@y.com` for the keyword `info`. -/
theorem C3_counterexample :
    pick_best [str "x@ceo.com", str "info@y.com"] [str "ceo", str "info"]
        = some (str "x@ceo.com")
      ∧ pick_best_localpart [str "x@ceo.com", str "info@y.com"] [str "ceo", str "info"]
        = some (str "info@y.com")
      ∧ hasSub (str "ceo") (lowerL (local_part (str "x@ceo.com"))) = false := by
  refine ⟨by decide, by decide, by decide⟩

/-- C3 (amended): `pick_best` iterates the keywords in their given order
and, for each keyword, returns the first candidate whose **entire
lowercased string** contains that keyword; keyword priority beats
appearance order; with no keywords left it falls back to the first
candidate.  The last conjunct is the claim's own example. -/
theorem C3_keyword_priority :
    (∀ (emails ks1 ks2 : List (List Char)),
      (∀ k, k ∈ ks1 → emails.find? (fun x => hasSub k (lowerL x)) = none) →
      pick_best emails (ks1 ++ ks2) = pick_best emails ks2)
    ∧ (∀ (emails : List (List Char)) (k : List Char) (ks : List (List Char)) (e : List Char),
      emails.find? (fun x => hasSub k (lowerL x)) = some e →
      pick_best emails (k :: ks) = some e)
    ∧ (∀ emails : List (List Char), pick_best emails [] = emails.head?)
    ∧ pick_best [str "zzz@info.co", str "boss@ceo.com"] [str "ceo", str "info"]
        = some (str "boss@ceo.com") := by
  refine ⟨?_, ?_, ?_, by decide⟩
  · intro emails ks1 ks2 h
    induction ks1 with
    | nil => rfl
    | cons k ks ih =>
      have hk : emails.find? (fun x => hasSub k (lowerL x)) = none :=
        h k (List.mem_cons_self k ks)
      have step : pick_best emails ((k :: ks) ++ ks2) = pick_best emails (ks ++ ks2) := by
        show (match emails.find? (fun x => hasSub k (lowerL x)) with
          | some e => some e
          | none => pick_best emails (ks ++ ks2)) = pick_best emails (ks ++ ks2)
        rw [hk]
      exact step.trans (ih fun k' hk' => h k' (List.mem_cons_of_mem k hk'))
  · intro emails k ks e h
    unfold pick_best
    rw [h]
  · intro emails
    rfl

/-- C3 witness: the three general parts of the amended statement at
concrete inputs — a keyword matching no candidate is skipped, a keyword
match is returned, and the keyword-free fallback is the first candidate. -/
theorem C3_witness :
    pick_best [str "a@x.com"] ([str "ceo"] ++ [str "info"])
        = pick_best [str "a@x.com"] [str "info"]
      ∧ pick_best [str "info@y.com"] [str "info", str "ceo"] = some (str "info@y.com")
      ∧ pick_best [str "a@x.com"] [] = some (str "a@x.com") :=
  ⟨C3_keyword_priority.1 [str "a@x.com"] [str "ceo"] [str "info"] (by decide),
    C3_keyword_priority.2.1 [str "info@y.com"] (str "info") [str "ceo"]
      (str "info@y.com") (by decide),
    (C3_keyword_priority.2.2.1 [str "a@x.com"]).trans rfl⟩

/-- C6 counterexample: the exclusion filter tests `naver.com` as a
substring of the **whole** candidate.  The candidate `naver.com@foo.co` —
which the extractor does produce — has domain `foo.co`, which ends in no
excluded domain, so the claimed domain-suffix rule keeps it; the code
removes it. -/
theorem C6_counterexample :
    email_findall (str "x naver.com@foo.co") = [str "naver.com@foo.co"]
      ∧ filter_valid [str "naver.com@foo.co"] = []
      ∧ keep_spec (str "naver.com@foo.co") = true := by
  refine ⟨by decide, by decide, by decide⟩

/-- C6 (amended): the exclusion filter of the search-surface stage keeps a
candidate if and only if neither `naver.com` nor `google.com` occurs as a
substring anywhere in the candidate string. -/
theorem C6_exclusion_filter :
    ∀ (emails : List (List Char)) (e : List Char),
      e ∈ filter_valid emails
        ↔ e ∈ emails ∧ hasSub (str "naver.com") e = false
            ∧ hasSub (str "google.com") e = false := by
  intro emails e
  simp [filter_valid, List.mem_filter, Bool.and_eq_true]

/-- C7 counterexample: the homepage loop tests the excluded names as
substrings of the **whole URL**, not against its host.  The first link's
host is `example.com` — excluded by no rule of the claim — yet the code
skips it because `naver.com` occurs in its query string, and picks the
second link instead. -/
theorem C7_counterexample :
    pick_homepage
        [some (str "http://example.com/?from=naver.com"), some (str "http://other.com/")]
        = some (str "http://other.com/")
      ∧ pick_homepage_spec
        [some (str "http://example.com/?from=naver.com"), some (str "http://other.com/")]
        = some (str "http://example.com/?from=naver.com")
      ∧ host_of (str "http://example.com/?from=naver.com") = str "example.com" := by
  refine ⟨by decide, by decide, by decide⟩

/-- C7 (amended): the homepage chosen by the search-surface stage is the
first `href` (in document order) that is present, non-empty, and contains
neither `naver.com` nor `google.com` as a substring anywhere in the URL;
`none` when no such link exists. -/
theorem C7_homepage_first_link :
    ∀ hrefs : List (Option (List Char)),
      pick_homepage hrefs =
        (hrefs.filterMap id).find?
          (fun h => !h.isEmpty && !hasSub (str "naver.com") h
            && !hasSub (str "google.com") h) := by
  intro hrefs
  induction hrefs with
  | nil => rfl
  | cons h t ih =>
    cases h with
    | none => simpa [pick_homepage] using ih
    | some href =>
      by_cases hg : (!href.isEmpty && !hasSub (str "naver.com") href
          && !hasSub (str "google.com") href) = true
      · simp [pick_homepage, hg, List.find?]
      · rw [show pick_homepage (some href :: t) = pick_homepage t by
            simp [pick_homepage, Bool.eq_false_iff.mpr hg]]
        rw [ih]
        simp [List.find?, Bool.eq_false_iff.mpr hg]

/-- A concrete search page whose phone sub-step throws while homepage and
email data are available on the loaded page. -/
def c8Page : PlacePage :=
  ⟨Except.error (), Except.ok [some (str "http://acme.kr")],
    Except.ok (str "contact: info@acme.kr")⟩

/-- C8 counterexample: `search_naver_place` has a single inner `try` block
around all three metadata sub-steps, not one per field.  On a page where
the phone lookup throws but a homepage link and an email are present in
the loaded page, the code returns the all-`None` dictionary — the
homepage and email fields degrade too, although the same data would have
yielded `http://acme.kr` and `info@acme.kr`. -/
theorem C8_counterexample :
    search_naver_place (str "acme") (fun _ => Except.ok c8Page) = ⟨none, none, none⟩
      ∧ pick_homepage [some (str "http://acme.kr")] = some (str "http://acme.kr")
      ∧ (filter_valid (email_findall (str "contact: info@acme.kr"))).head?
          = some (str "info@acme.kr") := by
  refine ⟨by decide, by decide, by decide⟩

/-- C8 (amended): when navigation succeeds and a metadata sub-step throws,
the exception aborts the whole metadata block: fields assigned **before**
the failing step keep their values, while the failing field and every
later field degrade to `none`.  A phone-step failure loses all three
fields; an href-step failure keeps the phone; a page-text failure keeps
phone and homepage. -/
theorem C8_partial_failure :
    ∀ (company_name : List Char) (world : List Char → Except Unit PlacePage)
      (page : PlacePage),
      world (search_url company_name) = Except.ok page →
      ((page.phoneRes = Except.error () →
          search_naver_place company_name world = ⟨none, none, none⟩)
        ∧ (∀ ph, page.phoneRes = Except.ok ph → page.hrefsRes = Except.error () →
          search_naver_place company_name world = ⟨none, none, ph⟩)
        ∧ (∀ ph hrefs, page.phoneRes = Except.ok ph → page.hrefsRes = Except.ok hrefs →
          page.sourceRes = Except.error () →
          search_naver_place company_name world = ⟨none, pick_homepage hrefs, ph⟩)) := by
  intro n world page hw
  refine ⟨?_, ?_, ?_⟩
  · intro hp
    simp [search_naver_place, hw, hp]
  · intro ph hp hh
    simp [search_naver_place, hw, hp, hh]
  · intro ph hrefs hp hh hs
    simp [search_naver_place, hw, hp, hh, hs]

/-- A concrete page whose page-source read throws. -/
def c8PageTextThrows : PlacePage :=
  ⟨Except.ok (some (str "02-123-4567")), Except.ok [some (str "http://acme.kr")],
    Except.error ()⟩

/-- C8 witness: the amended statement at concrete pages — a throwing phone
step loses every field, and a throwing page-text step keeps the phone and
homepage computed before it. -/
theorem C8_witness :
    search_naver_place (str "acme") (fun _ => Except.ok c8Page) = ⟨none, none, none⟩
      ∧ search_naver_place (str "acme") (fun _ => Except.ok c8PageTextThrows)
        = ⟨none, pick_homepage [some (str "http://acme.kr")],
            some (str "02-123-4567")⟩ :=
  ⟨(C8_partial_failure (str "acme") (fun _ => Except.ok c8Page) c8Page rfl).1 rfl,
    (C8_partial_failure (str "acme") (fun _ => Except.ok c8PageTextThrows)
      c8PageTextThrows rfl).2.2 (some (str "02-123-4567"))
      [some (str "http://acme.kr")] rfl rfl rfl⟩

/-- `pick_best` of an empty candidate list is `none`, whatever the
keywords (lines 189-198: no keyword can match and the fallback list is
empty). -/
theorem pick_best_nil (keywords : List (List Char)) : pick_best [] keywords = none := by
  induction keywords with
  | nil => rfl
  | cons k ks ih =>
    show (match (List.find? (fun e => hasSub k (lowerL e)) []) with
      | some e => some e
      | none => pick_best [] ks) = none
    rw [List.find?_nil]
    exact ih

/-- C9: the website stage returns `none` for a falsy URL (Python `if not
url`), for a failed navigation, and when no candidate email occurs in the
reached page text; and every exception of the body is caught at the
boundary and becomes `none`, so the resolver never raises. -/
theorem C9_website_stage_none_cases :
    ∀ (url : Option (List Char)) (w : SiteWorld),
      (py_truthy url = false → extract_email_from_website url w = none)
      ∧ (∀ u, url = some u → w.navRes (normalize_url u) = Except.error () →
          extract_email_from_website url w = none)
      ∧ (∀ text, site_page_text w = Except.ok text → email_findall text = [] →
          extract_email_from_website url w = none)
      ∧ (∀ e, website_body url w = Except.error e →
          extract_email_from_website url w = none) := by
  intro url w
  refine ⟨?_, ?_, ?_, ?_⟩
  · intro hf
    cases url with
    | none => rfl
    | some u =>
      cases u with
      | nil => rfl
      | cons c t => exact absurd hf (by simp [py_truthy])
  · intro u hu hnav
    subst hu
    cases hem : u.isEmpty with
    | true => simp [extract_email_from_website, website_body, hem]
    | false => simp [extract_email_from_website, website_body, hem, hnav]
  · intro text htext hempty
    cases url with
    | none => rfl
    | some u =>
      cases hem : u.isEmpty with
      | true => simp [extract_email_from_website, website_body, hem]
      | false =>
        cases hnav : w.navRes (normalize_url u) with
        | error e => simp [extract_email_from_website, website_body, hem, hnav]
        | ok v =>
          simp [extract_email_from_website, website_body, hem, hnav, htext, hempty,
            pick_best_nil]
  · intro e hbody
    unfold extract_email_from_website
    rw [hbody]

/-- A website world whose navigation always fails. -/
def c9NavFails : SiteWorld :=
  ⟨fun _ => Except.error (), Except.ok false, Except.ok (), Except.ok [], Except.ok []⟩

/-- A website world that renders a page with no email in its text. -/
def c9NoCandidate : SiteWorld :=
  ⟨fun _ => Except.ok (), Except.ok false, Except.ok (), Except.ok [],
    Except.ok (str "no address here")⟩

/-- C9 witness: the none-cases at concrete inputs — a `None` URL, an empty
URL, a failing navigation, and a page without a single candidate. -/
theorem C9_witness :
    extract_email_from_website none c9NoCandidate = none
      ∧ extract_email_from_website (some []) c9NoCandidate = none
      ∧ extract_email_from_website (some (str "acme.kr")) c9NavFails = none
      ∧ extract_email_from_website (some (str "acme.kr")) c9NoCandidate = none :=
  ⟨(C9_website_stage_none_cases none c9NoCandidate).1 rfl,
    (C9_website_stage_none_cases (some []) c9NoCandidate).1 rfl,
    (C9_website_stage_none_cases (some (str "acme.kr")) c9NavFails).2.1
      (str "acme.kr") rfl rfl,
    (C9_website_stage_none_cases (some (str "acme.kr")) c9NoCandidate).2.2.1
      (str "no address here") rfl (by decide)⟩

/-! ## Shape of every match of `email_pattern` -/

/-- The TLD part as the code's class `[A-Z|a-z]{2,}` has it: at least two
characters, each a letter or `|`. -/
def tld_ok (t : List Char) : Bool := decide (2 ≤ t.length) && t.all isTldChar

/-- The domain-and-TLD grammar after the `@`: some split into a nonempty
run of domain characters, a literal dot, and a TLD run reaching the end of
the candidate. -/
def dom_ok (d : List Char) : Bool :=
  (List.range d.length).any (fun i =>
    decide (0 < i) && (d.take i).all isDomainChar &&
      (match d.drop i with
       | '.' :: t => tld_ok t
       | _ => false))

/-- The full grammar of an extracted candidate: a nonempty run of local
characters, then `@`, then a domain with at least one dot ending in a TLD
of two or more letter-or-`|` characters. -/
def email_shape (e : List Char) : Bool :=
  !(e.takeWhile isLocalChar).isEmpty &&
    (match e.dropWhile isLocalChar with
     | '@' :: d => dom_ok d
     | _ => false)

/-- Modelled from the spec: the claim's grammar, whose TLD is restricted
to two or more **alphabetic** characters only. -/
def tld_ok_spec (t : List Char) : Bool := decide (2 ≤ t.length) && t.all Char.isAlpha

/-- Modelled from the spec: the claim's domain grammar with the
letters-only TLD. -/
def dom_ok_spec (d : List Char) : Bool :=
  (List.range d.length).any (fun i =>
    decide (0 < i) && (d.take i).all isDomainChar &&
      (match d.drop i with
       | '.' :: t => tld_ok_spec t
       | _ => false))

/-- Modelled from the spec: the claim's email grammar (local part, `@`,
dotted domain, letters-only TLD of length at least 2). -/
def email_shape_spec (e : List Char) : Bool :=
  !(e.takeWhile isLocalChar).isEmpty &&
    (match e.dropWhile isLocalChar with
     | '@' :: d => dom_ok_spec d
     | _ => false)

/-- Splitting `takeWhile`/`dropWhile` around a known good prefix followed
by a failing character. -/
theorem takeWhile_app_cons (p : Char → Bool) (l1 : List Char) (x : Char) (l2 : List Char)
    (h1 : ∀ c ∈ l1, p c = true) (hx : p x = false) :
    (l1 ++ x :: l2).takeWhile p = l1 ∧ (l1 ++ x :: l2).dropWhile p = x :: l2 := by
  induction l1 with
  | nil => simp [List.takeWhile_cons, List.dropWhile_cons, hx]
  | cons a t ih =>
    have ha : p a = true := h1 a (List.mem_cons_self a t)
    have ht := ih (fun c hc => h1 c (List.mem_cons_of_mem a hc))
    simp [List.takeWhile_cons, List.dropWhile_cons, ha, ht.1, ht.2]

/-- Soundness of the TLD backtracker: a successful chop splits its input,
keeps at least two characters, and keeps only characters of the run. -/
theorem tldChop_sound :
    ∀ (rt rest t rem : List Char), tldChop rt rest = some (t, rem) →
      rt.reverse ++ rest = t ++ rem ∧ 2 ≤ t.length ∧ ∀ c ∈ t, c ∈ rt := by
  intro rt
  induction rt with
  | nil =>
    intro rest t rem h
    exact absurd h (by simp [tldChop])
  | cons c rt' ih =>
    intro rest t rem h
    unfold tldChop at h
    by_cases hc : (!rt'.isEmpty && (isWordChar c != optWord rest.head?)) = true
    · rw [if_pos hc] at h
      obtain ⟨ht, hrem⟩ : (c :: rt').reverse = t ∧ rest = rem := by simpa using h
      subst ht
      subst hrem
      have hne : rt' ≠ [] := by
        have hc' := hc
        simp only [Bool.and_eq_true] at hc'
        simpa using hc'.1
      refine ⟨rfl, ?_, ?_⟩
      · have : 1 ≤ rt'.length := List.length_pos.mpr hne
        simp only [List.length_reverse, List.length_cons]
        omega
      · intro x hx
        exact List.mem_reverse.mp hx
    · rw [if_neg hc] at h
      obtain ⟨heq, hlen, hmem⟩ := ih (c :: rest) t rem h
      refine ⟨?_, hlen, fun x hx => List.mem_cons_of_mem c (hmem x hx)⟩
      calc (c :: rt').reverse ++ rest
          = rt'.reverse ++ (c :: rest) := by simp [List.reverse_cons, List.append_assoc]
        _ = t ++ rem := heq

/-- Soundness of the domain scanner: a successful scan splits its input
and returns a nonempty domain prefix (of characters of the scanned run),
a literal dot, and a TLD run of at least two TLD characters. -/
theorem domScanRev_sound :
    ∀ (rd tail r3 dt rem : List Char), domScanRev rd tail r3 = some (dt, rem) →
      rd.reverse ++ (tail ++ r3) = dt ++ rem
      ∧ ∃ d1 t, dt = d1 ++ '.' :: t ∧ d1 ≠ [] ∧ (∀ c ∈ d1, c ∈ rd)
          ∧ 2 ≤ t.length ∧ ∀ c ∈ t, isTldChar c = true := by
  intro rd
  induction rd with
  | nil =>
    intro tail r3 dt rem h
    exact absurd h (by simp [domScanRev])
  | cons c rd' ih =>
    intro tail r3 dt rem h
    have step : domScanRev rd' (c :: tail) r3 = some (dt, rem) →
        rd'.reverse ++ (c :: tail ++ r3) = dt ++ rem
        ∧ ∃ d1 t, dt = d1 ++ '.' :: t ∧ d1 ≠ [] ∧ (∀ x ∈ d1, x ∈ c :: rd')
            ∧ 2 ≤ t.length ∧ ∀ x ∈ t, isTldChar x = true := by
      intro h'
      obtain ⟨heq, d1, t, hdt, hne, hmem, hlen, htld⟩ := ih (c :: tail) r3 dt rem h'
      exact ⟨heq, d1, t, hdt, hne,
        fun x hx => List.mem_cons_of_mem c (hmem x hx), hlen, htld⟩
    have lift : rd'.reverse ++ (c :: tail ++ r3) = dt ++ rem →
        (c :: rd').reverse ++ (tail ++ r3) = dt ++ rem := by
      intro heq
      calc (c :: rd').reverse ++ (tail ++ r3)
          = rd'.reverse ++ (c :: tail ++ r3) := by simp [List.reverse_cons, List.append_assoc]
        _ = dt ++ rem := heq
    unfold domScanRev at h
    by_cases hc : ((c == '.') && !rd'.isEmpty) = true
    · rw [if_pos hc] at h
      have hc' := hc
      simp only [Bool.and_eq_true] at hc'
      have hcdot : c = '.' := by simpa using hc'.1
      have hrd : rd' ≠ [] := by simpa using hc'.2
      rcases hsub : tldChop ((tail ++ r3).takeWhile isTldChar).reverse
          ((tail ++ r3).dropWhile isTldChar) with _ | ⟨t, rem'⟩
      · rw [hsub] at h
        obtain ⟨heq, rest⟩ := step h
        exact ⟨lift heq, rest⟩
      · rw [hsub] at h
        obtain ⟨hdt, hrem⟩ : rd'.reverse ++ '.' :: t = dt ∧ rem' = rem := by simpa using h
        obtain ⟨heq, hlen, hmem⟩ := tldChop_sound _ _ _ _ hsub
        have hsplit : tail ++ r3 = t ++ rem' := by
          have := heq
          rwa [List.reverse_reverse, List.takeWhile_append_dropWhile] at this
        subst hdt
        subst hrem
        refine ⟨?_, rd'.reverse, t, rfl, by simpa using hrd, ?_, hlen, ?_⟩
        · calc (c :: rd').reverse ++ (tail ++ r3)
              = rd'.reverse ++ (c :: (t ++ rem')) := by
                rw [hsplit]
                simp [List.reverse_cons, List.append_assoc]
          _ = rd'.reverse ++ ('.' :: (t ++ rem')) := by rw [hcdot]
          _ = (rd'.reverse ++ '.' :: t) ++ rem' := by simp
        · intro x hx
          exact List.mem_cons_of_mem c (List.mem_reverse.mp hx)
        · intro x hx
          exact List.mem_takeWhile_imp (List.mem_reverse.mp (hmem x hx))
    · rw [if_neg hc] at h
      obtain ⟨heq, rest⟩ := step h
      exact ⟨lift heq, rest⟩

/-- Soundness of a single match attempt: a successful match is a nonempty
segment of the text at the attempted position, and it satisfies the
extracted-candidate grammar. -/
theorem tryMatchAt_sound :
    ∀ (prev : Option Char) (s m rest : List Char), tryMatchAt prev s = some (m, rest) →
      s = m ++ rest ∧ m ≠ [] ∧ email_shape m = true := by
  intro prev s m rest h
  unfold tryMatchAt at h
  split at h
  case isFalse => exact absurd h (by simp)
  split at h
  case isTrue => exact absurd h (by simp)
  case isFalse hloc =>
  split at h
  case h_2 => exact absurd h (by simp)
  case h_1 r2 hdrop =>
  split at h
  case h_2 => exact absurd h (by simp)
  case h_1 dt rem' hscan =>
  obtain ⟨hm, hrest⟩ : s.takeWhile isLocalChar ++ '@' :: dt = m ∧ rem' = rest := by
    simpa using h
  obtain ⟨heq, d1, t, hdt, hne, hmem, hlen, htld⟩ := domScanRev_sound _ _ _ _ _ hscan
  have hr2 : r2 = dt ++ rem' := by
    have := heq
    rwa [List.reverse_reverse, List.nil_append, List.takeWhile_append_dropWhile] at this
  have hlocal : ∀ c ∈ s.takeWhile isLocalChar, isLocalChar c = true :=
    fun c hc => List.mem_takeWhile_imp hc
  have hsplit := takeWhile_app_cons isLocalChar (s.takeWhile isLocalChar) '@' dt hlocal rfl
  subst hm
  subst hrest
  refine ⟨?_, by simp, ?_⟩
  · calc s = s.takeWhile isLocalChar ++ s.dropWhile isLocalChar :=
        (List.takeWhile_append_dropWhile isLocalChar s).symm
      _ = s.takeWhile isLocalChar ++ '@' :: (dt ++ rem') := by rw [hdrop, hr2]
      _ = (s.takeWhile isLocalChar ++ '@' :: dt) ++ rem' := by simp
  · unfold email_shape
    rw [hsplit.1, hsplit.2]
    rw [Bool.and_eq_true]
    refine ⟨by simpa using hloc, ?_⟩
    show dom_ok dt = true
    unfold dom_ok
    refine List.any_eq_true.mpr ⟨d1.length, List.mem_range.mpr ?_, ?_⟩
    · rw [hdt]
      simp only [List.length_append, List.length_cons]
      omega
    · have htake : dt.take d1.length = d1 := by rw [hdt]; exact List.take_left d1 _
      have hdrop2 : dt.drop d1.length = '.' :: t := by rw [hdt]; exact List.drop_left d1 _
      rw [Bool.and_eq_true, Bool.and_eq_true]
      refine ⟨⟨?_, ?_⟩, ?_⟩
      · simpa using List.length_pos.mpr hne
      · rw [htake]
        exact List.all_eq_true.mpr fun c hc =>
          List.mem_takeWhile_imp (List.mem_reverse.mp (hmem c hc))
      · rw [hdrop2]
        show tld_ok t = true
        unfold tld_ok
        rw [Bool.and_eq_true]
        exact ⟨by simpa using hlen, List.all_eq_true.mpr htld⟩

/-- Step equation of the scan: a successful attempt emits the match and
resumes right after it. -/
theorem findallAux_succ_some (fuel : Nat) (prev : Option Char) (s m rest : List Char)
    (h : tryMatchAt prev s = some (m, rest)) :
    findallAux (fuel + 1) prev s = m :: findallAux fuel m.getLast? rest := by
  conv_lhs => unfold findallAux
  rw [h]

/-- Step equation of the scan: a failed attempt advances one character. -/
theorem findallAux_succ_none (fuel : Nat) (prev : Option Char) (c : Char) (t : List Char)
    (h : tryMatchAt prev (c :: t) = none) :
    findallAux (fuel + 1) prev (c :: t) = findallAux fuel (some c) t := by
  conv_lhs => unfold findallAux
  rw [h]

/-- A match attempt never succeeds on an empty text. -/
theorem tryMatchAt_nil (prev : Option Char) : tryMatchAt prev [] = none := by
  unfold tryMatchAt
  simp [List.takeWhile]

/-- The scan of an empty text emits nothing. -/
theorem findallAux_nil (fuel : Nat) (prev : Option Char) :
    findallAux fuel prev [] = [] := by
  cases fuel with
  | zero => rfl
  | succ fuel =>
    conv_lhs => unfold findallAux
    rw [tryMatchAt_nil]

/-- Every member of a scan's output satisfies the candidate grammar. -/
theorem findallAux_shape :
    ∀ (fuel : Nat) (prev : Option Char) (s m : List Char),
      m ∈ findallAux fuel prev s → email_shape m = true := by
  intro fuel
  induction fuel with
  | zero =>
    intro prev s m h
    exact absurd h (by simp [findallAux])
  | succ fuel ih =>
    intro prev s m h
    rcases hmatch : tryMatchAt prev s with _ | ⟨mm, rest⟩
    · cases s with
      | nil =>
        rw [findallAux_nil] at h
        exact absurd h (by simp)
      | cons c t =>
        rw [findallAux_succ_none fuel prev c t hmatch] at h
        exact ih _ _ _ h
    · rw [findallAux_succ_some fuel prev s mm rest hmatch] at h
      rcases List.mem_cons.mp h with rfl | h'
      · exact (tryMatchAt_sound prev s m rest hmatch).2.2
      · exact ih _ _ _ h'

/-- C4 counterexample: on the text `a@b.cd|ef` the extractor returns the
candidate `a@b.cd|ef` itself — its TLD part `cd|ef` contains the pipe
character, which is in the code's class `[A-Z|a-z]`, so the claimed
letters-only TLD grammar is violated. -/
theorem C4_counterexample :
    email_findall (str "a@b.cd|ef") = [str "a@b.cd|ef"]
      ∧ email_shape_spec (str "a@b.cd|ef") = false := by
  refine ⟨by decide, by decide⟩

/-- C4 (amended): every string returned by the extractor matches the
grammar of `email_pattern` as written: one or more of `[A-Za-z0-9._%+-]`,
then `@`, then a domain containing at least one dot, ending in a TLD of
two or more characters drawn from the class `[A-Z|a-z]` — letters or the
pipe character. -/
theorem C4_extraction_grammar :
    ∀ (text e : List Char), e ∈ email_findall text → email_shape e = true := by
  intro text e h
  exact findallAux_shape _ _ _ _ h

/-- C4 witness: the grammar holds of the candidate extracted from a
concrete text. -/
theorem C4_witness : email_shape (str "info@acme.kr") = true :=
  C4_extraction_grammar (str "contact info: info@acme.kr") (str "info@acme.kr") (by decide)

/-- Candidate lists in occurrence order: `Appears ms s` holds when the
candidates `ms` occur in the text `s` as non-overlapping contiguous
segments, listed from left to right. -/
inductive Appears : List (List Char) → List Char → Prop
  | nil (s : List Char) : Appears [] s
  | skip (c : Char) (s : List Char) (ms : List (List Char)) :
      Appears ms s → Appears ms (c :: s)
  | seg (m s : List Char) (ms : List (List Char)) :
      Appears ms s → Appears (m :: ms) (m ++ s)

/-- The scan's output lists its matches in occurrence order. -/
theorem findallAux_appears :
    ∀ (fuel : Nat) (prev : Option Char) (s : List Char),
      Appears (findallAux fuel prev s) s := by
  intro fuel
  induction fuel with
  | zero =>
    intro prev s
    exact Appears.nil s
  | succ fuel ih =>
    intro prev s
    rcases hmatch : tryMatchAt prev s with _ | ⟨m, rest⟩
    · cases s with
      | nil =>
        rw [findallAux_nil]
        exact Appears.nil []
      | cons c t =>
        rw [findallAux_succ_none fuel prev c t hmatch]
        exact Appears.skip c t _ (ih (some c) t)
    · have hs := (tryMatchAt_sound prev s m rest hmatch).1
      rw [findallAux_succ_some fuel prev s m rest hmatch, hs]
      exact Appears.seg m rest _ (ih m.getLast? rest)

/-- C5 counterexample: the extractor performs **no** deduplication — on a
text carrying the same address twice the candidate sequence lists it
twice, so the claimed no-duplicates property fails. -/
theorem C5_counterexample :
    email_findall (str "a@b.co a@b.co") = [str "a@b.co", str "a@b.co"]
      ∧ ¬ (email_findall (str "a@b.co a@b.co")).Nodup := by
  refine ⟨by decide, by decide⟩

/-- C5 (amended): the candidate sequence lists the matches in the order of
their occurrences in the source text — each candidate is a contiguous
segment of the text and the segments are non-overlapping and
left-to-right — while duplicate occurrences are retained, not removed. -/
theorem C5_occurrence_order :
    ∀ text : List Char, Appears (email_findall text) text := by
  intro text
  exact findallAux_appears _ none text
